import Mathlib

/-!
Verification of the SymINDy evolutionary-search core
(`symindy/symindy/symindy.py`, primary module; `src/SymINDy/main_tmp.py` is
the earlier variant).  The Python code is shallowly embedded below: numeric
values are modelled as exact rationals, numpy arrays as lists (time-major:
a data array is a list of samples, each a list of coordinates), the external
pysindy fitting engine as an abstract record of pure functions, and Python
exceptions as `Except String`.
-/

/-! ## Expression trees (DEAP `gp.PrimitiveTree` view)

A DEAP primitive tree over the typed primitive set built in
`configure_DEAP`: terminals are argument slots or ephemeral constants,
primitives have arity one or two.  `size` models Python `len(individual[i])`
(number of nodes); `height` models DEAP's `height` attribute (a single node
has height 0). -/

inductive Expr where
  | term (name : String)
  | unary (name : String) (a : Expr)
  | binary (name : String) (a b : Expr)
deriving DecidableEq, Repr

instance : Inhabited Expr := ⟨Expr.term "ARG0"⟩

/-- Number of nodes of a tree, Python `len(tree)` on the flat DEAP list. -/
def Expr.size : Expr → Nat
  | .term _ => 1
  | .unary _ a => 1 + a.size
  | .binary _ a b => 1 + a.size + b.size

/-- DEAP tree height: depth of the deepest node, 0 for a lone terminal. -/
def Expr.height : Expr → Nat
  | .term _ => 0
  | .unary _ a => 1 + a.height
  | .binary _ a b => 1 + max a.height b.height

/-! ## Randomized operator branch selection (`_random_mating_operator`,
`_random_mutation_operator`, symindy.py lines 69-83)

The Python functions draw `roll = random.random()` (uniform on `[0,1)`)
and dispatch on threshold tests; a fall-through (no branch taken) would
return Python `None`, modelled by `Option.none`.  We model which DEAP
operator each branch invokes. -/

inductive MatingBranch where
  | cxOnePoint
  | cxOnePointLeafBiased
deriving DecidableEq, Repr

inductive MutationBranch where
  | mutInsert
  | mutShrink
  | mutNodeReplacement
deriving DecidableEq, Repr

/-- Branch taken by `_random_mating_operator` for a given roll:
`if roll < 0.5: cxOnePoint elif roll < 1.5: cxOnePointLeafBiased`. -/
def randomMatingOperator (roll : ℚ) : Option MatingBranch :=
  if roll < 1/2 then some .cxOnePoint
  else if roll < 3/2 then some .cxOnePointLeafBiased
  else none

/-- Branch taken by `_random_mutation_operator` for a given roll:
`if roll < 0.5: mutInsert elif roll < 0.66: mutShrink
elif roll < 2.66: mutNodeReplacement`. -/
def randomMutationOperator (roll : ℚ) : Option MutationBranch :=
  if roll < 1/2 then some .mutInsert
  else if roll < 33/50 then some .mutShrink
  else if roll < 133/50 then some .mutNodeReplacement
  else none

/-! ## Argument renaming (`_rename_args`, symindy.py lines 85-107)

The Python code builds a dict `argnames` in insertion order:
first the `dimensions` state slots `ARG{d} -> x{d}`, then the `nc`
constant slots `ARG{i+dimensions} -> x{i}`, then optionally the time
slot.  We model the dict as the association list in insertion order
(all keys are distinct, so the dict and the list agree). -/

def renameArgsMap (nc dimensions : Nat) (isTimeDependent : Bool) :
    List (String × String) :=
  ((List.range dimensions).map
    (fun d => ("ARG" ++ toString d, "x" ++ toString d)))
  ++ ((List.range nc).map
    (fun i => ("ARG" ++ toString (i + dimensions), "x" ++ toString i)))
  ++ (if isTimeDependent then
        [("ARG" ++ toString (dimensions + nc), "t")] else [])

/-! ## Train/test split (`evalSymbReg`, symindy.py lines 240-253)

The Python split lambda is
`split = lambda x, ratio: (x[:int(ratio*len(x))], x[int(ratio*len(x)):])
if x is not None else (None, None)`.
`int()` truncates toward zero; all indices that occur are nonnegative
(negative-index Python slicing is outside the translated behaviour). -/

/-- Python `int()` on a rational: truncation toward zero. -/
def pyInt (q : ℚ) : ℤ := if q < 0 then -(⌊-q⌋) else ⌊q⌋

/-- The contiguous head/tail split at index `int(ratio * len(x))`. -/
def splitList {α : Type} (l : List α) (ratio : ℚ) : List α × List α :=
  (l.take (pyInt (ratio * l.length)).toNat,
   l.drop (pyInt (ratio * l.length)).toNat)

/-- The split lambda applied to an optional array (`None` stays `None`). -/
def splitOpt {α : Type} (x : Option (List α)) (ratio : ℚ) :
    Option (List α) × Option (List α) :=
  match x with
  | none => (none, none)
  | some l => (some (splitList l ratio).1, some (splitList l ratio).2)

/-! ## Sparsity penalty (`evalSymbReg`, symindy.py lines 255-268) -/

/-- Model of `model.coefficients().T.reshape(-1)`: transpose the
coefficient matrix and flatten it row-major. -/
def transposeFlatten (m : List (List ℚ)) : List ℚ := m.transpose.join

/-- Model of `np.split(arr, ntrees)`: cut into `k` equal-length chunks
(numpy raises unless the length divides evenly; chunk length is
`len/k`). -/
def npSplit (l : List ℚ) (k : Nat) : List (List ℚ) :=
  (List.range k).map (fun i => (l.drop (i * (l.length / k))).take (l.length / k))

/-- The accumulation loop: for each of the `ntrees` subtrees, contribute
0 nodes if all its coefficients are exactly zero (`continue`), otherwise
its node count `len(individual[i])`. -/
def countPenaltyNodes (individual : List Expr) (groups : List (List ℚ))
    (ntrees : Nat) : Nat :=
  ((List.range ntrees).map (fun i =>
    if (groups.getD i []).all (fun c => decide (c = 0)) then 0
    else (individual.getD i default).size)).sum

/-- Normalization `n_nodes / max_nnodes` with
`max_nnodes = 2**(1+max_depth)*ntrees`. -/
def nodePenalty (maxDepth ntrees nNodes : Nat) : ℚ :=
  (nNodes : ℚ) / (2 ^ (1 + maxDepth) * ntrees)

/-- The full `"n_zero_nodes"` sparsity penalty subtracted from fitness. -/
def sparsityPenalty (individual : List Expr) (coefs : List (List ℚ))
    (ntrees maxDepth : Nat) : ℚ :=
  nodePenalty maxDepth ntrees
    (countPenaltyNodes individual (npSplit (transposeFlatten coefs) ntrees)
      ntrees)

/-! ## The fitness evaluator (`SymINDy.evalSymbReg`, symindy.py lines 154-272)

The external pysindy engine is abstract: `createFit` covers
`create_sindy_model` followed by `fit_sindy_model` (compile the trees,
build the custom library, construct the model, fit it on the given data),
`score` is `model.score(x, t=..., x_dot=..., u=None,
multiple_trajectories=False, metric=..., **kwargs)` with the metric and
its kwargs folded into the engine, and `coefficients` is
`model.coefficients()`.  A model value `μ` stands for a fitted model. -/

structure SindyEngine (μ : Type) where
  createFit : List Expr → List (List ℚ) → Option (List (List ℚ)) →
    Option (List ℚ) → μ
  score : μ → List (List ℚ) → Option (List ℚ) → Option (List (List ℚ)) → ℚ
  coefficients : μ → List (List ℚ)

/-- The `if sparsity=="n_zero_nodes": fitness -= n_nodes/max_nnodes` step. -/
def applySparsity {μ : Type} (eng : SindyEngine μ) (individual : List Expr)
    (ntrees maxDepth : Nat) (sparsity : String) (model : μ) (fitness : ℚ) :
    ℚ :=
  if sparsity = "n_zero_nodes" then
    fitness - sparsityPenalty individual (eng.coefficients model) ntrees
      maxDepth
  else fitness

/-- The final `return [fitness,]` / `return model` dispatch on
`flag_solution`. -/
def evalReturn {μ : Type} (flagSolution : Bool) (model : μ) (fitness : ℚ) :
    Except String (List ℚ ⊕ μ) :=
  if flagSolution then .ok (.inr model) else .ok (.inl [fitness])

/-- Model of `SymINDy.evalSymbReg`: validate that `x_train` has at least
3 samples (raising `ValueError` otherwise), then fit on the head split
and score on the tail split when a ratio is given (on the full data
otherwise), apply the sparsity penalty, and return either the singleton
fitness list or the fitted model. -/
def evalSymbReg {μ : Type} (eng : SindyEngine μ) (individual : List Expr)
    (ntrees maxDepth : Nat) (xTrain : List (List ℚ))
    (xDotTrain : Option (List (List ℚ))) (timeRecObs : Option (List ℚ))
    (flagSolution : Bool) (trTeRatio : Option ℚ) (sparsity : String) :
    Except String (List ℚ ⊕ μ) :=
  if xTrain.length < 3 then
    .error "x_train shall have at least 3 timepounts!"
  else
    match trTeRatio with
    | some ratio =>
      let xs := splitList xTrain ratio
      let xds := splitOpt xDotTrain ratio
      let ts := splitOpt timeRecObs ratio
      let model := eng.createFit individual xs.1 xds.1 ts.1
      let fitness := eng.score model xs.2 ts.2 xds.2
      evalReturn flagSolution model
        (applySparsity eng individual ntrees maxDepth sparsity model fitness)
    | none =>
      let model := eng.createFit individual xTrain xDotTrain timeRecObs
      let fitness := eng.score model xTrain timeRecObs xDotTrain
      evalReturn flagSolution model
        (applySparsity eng individual ntrees maxDepth sparsity model fitness)

/-! ## Toolbox registrations made by `SymINDy.fit`
(symindy.py lines 426-459) -/

structure EvalRegistration where
  flagSolution : Bool
  trTeRatio : Option ℚ
deriving DecidableEq, Repr

/-- Arguments bound when registering `toolbox.evaluate`
(`flag_solution=False, tr_te_ratio=0.8`). -/
def evaluateRegistration : EvalRegistration :=
  { flagSolution := false, trTeRatio := some (4/5) }

/-- Arguments bound when registering `toolbox.retrieve_model`
(`flag_solution=True, tr_te_ratio=0.8`). -/
def retrieveModelRegistration : EvalRegistration :=
  { flagSolution := true, trTeRatio := some (4/5) }

/-- The single call `toolbox.retrieve_model(hof[0])` that produces the
Trained Model at the end of `fit` (symindy.py line 480). -/
def retrieveModel {μ : Type} (eng : SindyEngine μ) (hofBest : List Expr)
    (ntrees maxDepth : Nat) (xTrain : List (List ℚ))
    (xDotTrain : Option (List (List ℚ))) (timeRecObs : Option (List ℚ))
    (sparsity : String) : Except String (List ℚ ⊕ μ) :=
  evalSymbReg eng hofBest ntrees maxDepth xTrain xDotTrain timeRecObs
    retrieveModelRegistration.flagSolution retrieveModelRegistration.trTeRatio
    sparsity

/-- DEAP fitness weight from `creator.create("FitnessMax", base.Fitness,
weights=(1.0,))` (symindy.py line 118). -/
def fitnessMaxWeight : ℚ := 1

/-- DEAP compares fitnesses through `wvalues = weights * values`. -/
def weightedFitness (v : ℚ) : ℚ := fitnessMaxWeight * v

/-! ## Driver evaluation phase (`my_eaSimple`, symindy.py lines 362-365
and 384-388) -/

/-- An evolving individual: `ntrees` subtrees plus a fitness record that
is `none` when invalid (DEAP `not ind.fitness.valid`). -/
structure GpInd where
  trees : List Expr
  fitness : Option (List ℚ)
deriving DecidableEq, Repr

/-- DEAP invalid-fitness test `not ind.fitness.valid`. -/
def invalidFitness (ind : GpInd) : Bool := ind.fitness.isNone

/-- The assignment loop `for ind, fit in zip(invalid_ind, fitnesses):
ind.fitness.values = fit`: walk the population, giving each invalid
individual the next computed fitness in order. -/
def assignFitnesses : List GpInd → List (List ℚ) → List GpInd
  | [], _ => []
  | ind :: rest, fits =>
    if ind.fitness.isNone then
      match fits with
      | [] => ind :: rest
      | f :: fs => { ind with fitness := some f } :: assignFitnesses rest fs
    else ind :: assignFitnesses rest fits

/-- One generation's evaluation phase: collect the individuals with
invalid fitness, evaluate each of them once (`toolbox.map`), and assign
the results back; also reports `nevals = len(invalid_ind)`.  An
evaluation error propagates (there is no try/except around it). -/
def evalPhase (evaluate : GpInd → Except String (List ℚ))
    (pop : List GpInd) : Except String (List GpInd × Nat) :=
  let invalid := pop.filter invalidFitness
  match invalid.mapM evaluate with
  | .error e => .error e
  | .ok fits => .ok (assignFitnesses pop fits, invalid.length)

/-- Projection of an `evalSymbReg` outcome to the fitness list the driver
assigns (the driver only ever calls it with `flag_solution=False`). -/
def toFitnessValues {μ : Type} :
    Except String (List ℚ ⊕ μ) → Except String (List ℚ)
  | .error e => .error e
  | .ok (.inl fs) => .ok fs
  | .ok (.inr _) => .ok []

/-- The `toolbox.evaluate` closure registered by `fit`: `evalSymbReg`
with the training data and `flag_solution=False, tr_te_ratio=0.8`. -/
def toolboxEvaluate {μ : Type} (eng : SindyEngine μ) (ntrees maxDepth : Nat)
    (xTrain : List (List ℚ)) (xDotTrain : Option (List (List ℚ)))
    (timeRecObs : Option (List ℚ)) (sparsity : String) (ind : GpInd) :
    Except String (List ℚ) :=
  toFitnessValues (evalSymbReg eng ind.trees ntrees maxDepth xTrain xDotTrain
    timeRecObs evaluateRegistration.flagSolution evaluateRegistration.trTeRatio
    sparsity)

/-! ## Concrete instances used as witnesses -/

/-- A test engine whose "model" records the data the engine was fitted
on, with zero score and empty coefficient matrix. -/
def recordingEngine : SindyEngine (List (List ℚ)) where
  createFit := fun _ x _ _ => x
  score := fun _ _ _ _ => 0
  coefficients := fun _ => []

/-- Ten distinct one-dimensional samples. -/
def xT10 : List (List ℚ) := (List.range 10).map (fun i => [(i : ℚ)])

/-! ## Static height limit on the genetic operators
(`_create_toolbox`, symindy.py lines 135-136)

`toolbox.decorate("mate", gp.staticLimit(key=operator.attrgetter("height"),
max_value=2))` and likewise for `"mutate"`. -/

/-- The `max_value=2` registered with both decorators. -/
def operatorMaxHeight : Nat := 2

/-- Modelled from the spec: `gp.staticLimit` itself is DEAP library code
external to this repository; per the spec's operator contract it measures
each tree the wrapped operator produced with the registered key (tree
height) and replaces any result exceeding `max_value` with (a copy of)
one of the pre-operation parent trees; `choose i` selects the replacing
parent for result `i`. -/
def staticLimit (maxValue : Nat) (choose : Nat → Nat)
    (parents : List Expr) : Nat → List Expr → List Expr
  | _, [] => []
  | i, t :: rest =>
    (if maxValue < t.height then
      parents.getD (choose i % parents.length) default
     else t) :: staticLimit maxValue choose parents (i+1) rest

/-! ## Trained-model wrapper scoring (`SymINDy.score`,
symindy.py lines 528-552) -/

/-- Python exception kinds the wrapper's handler distinguishes: the
`except ValueError` clause versus every other exception type. -/
inductive PyError where
  | valueError
  | otherError
deriving DecidableEq, Repr

/-- Model of the static `score` method: apply the metric to `(x, x_pred)`
unguarded, then apply it to `(xdot, xdot_pred)` inside
`try/... except ValueError`, substituting `None` for the derivative score
when a `ValueError` is raised. -/
def scoreWrapper {α : Type} (metric : α → α → Except PyError ℚ)
    (x xPred xdot xdotPred : α) : Except PyError (ℚ × Option ℚ) :=
  match metric x xPred with
  | .error e => .error e
  | .ok xScore =>
    match metric xdot xdotPred with
    | .ok d => .ok (xScore, some d)
    | .error .valueError => .ok (xScore, none)
    | .error .otherError => .error .otherError

/-! ## Variation (`my_eaSimple._my_varAnd`, symindy.py lines 315-356)

Randomness is passed explicitly: `cxRoll p` is the `random.random()` draw
gating crossover of the p-th adjacent offspring pair, `cxComponent p`
models the `random.randint(0, ntrees-1)` draw choosing which subtree that
pair mates (reduced mod `ntrees`), and `mutRoll i h` the draw gating
mutation of subtree `h` of offspring `i`.  The mate/mutate operators are
abstract.  Cloning is implicit in the functional embedding. -/

structure VarRand where
  cxRoll : Nat → ℚ
  cxComponent : Nat → Nat
  mutRoll : Nat → Nat → ℚ

/-- The crossover loop `for i in range(1, len(offspring), 2)`: with
probability `cxpb`, mate one randomly chosen subtree of each adjacent
pair and delete both fitness values. -/
def cxLoop (mate : Expr → Expr → Expr × Expr) (cxRoll : Nat → ℚ)
    (cxComponent : Nat → Nat) (cxpb : ℚ) (ntrees : Nat) :
    Nat → List GpInd → List GpInd
  | _, [] => []
  | _, [a] => [a]
  | p, a :: b :: rest =>
    if cxRoll p < cxpb then
      { trees := a.trees.set (cxComponent p % ntrees)
          (mate (a.trees.getD (cxComponent p % ntrees) default)
            (b.trees.getD (cxComponent p % ntrees) default)).1,
        fitness := none } ::
      { trees := b.trees.set (cxComponent p % ntrees)
          (mate (a.trees.getD (cxComponent p % ntrees) default)
            (b.trees.getD (cxComponent p % ntrees) default)).2,
        fitness := none } ::
      cxLoop mate cxRoll cxComponent cxpb ntrees (p+1) rest
    else
      a :: b :: cxLoop mate cxRoll cxComponent cxpb ntrees (p+1) rest

/-- One step of the inner mutation loop `for h_component in range(ntrees)`:
if the gate fires, mutate that subtree and remember that the fitness must
be deleted. -/
def mutStep (mutate : Expr → Expr) (roll : Nat → ℚ) (mutpb : ℚ)
    (acc : List Expr × Bool) (h : Nat) : List Expr × Bool :=
  if roll h < mutpb then (acc.1.set h (mutate (acc.1.getD h default)), true)
  else acc

/-- The inner mutation loop applied to one individual: each subtree index
is independently gated by `mutpb`; any hit deletes the fitness. -/
def mutInd (mutate : Expr → Expr) (roll : Nat → ℚ) (mutpb : ℚ)
    (ntrees : Nat) (ind : GpInd) : GpInd :=
  let res := (List.range ntrees).foldl (mutStep mutate roll mutpb)
    (ind.trees, false)
  { trees := res.1, fitness := if res.2 then none else ind.fitness }

/-- The outer mutation loop `for i in range(len(offspring))`. -/
def mutLoop (mutate : Expr → Expr) (mutRoll : Nat → Nat → ℚ) (mutpb : ℚ)
    (ntrees : Nat) : Nat → List GpInd → List GpInd
  | _, [] => []
  | i, ind :: rest =>
    mutInd mutate (mutRoll i) mutpb ntrees ind ::
    mutLoop mutate mutRoll mutpb ntrees (i+1) rest

/-- `_my_varAnd`: crossover pass over adjacent pairs, then mutation pass
over every individual. -/
def myVarAnd (mate : Expr → Expr → Expr × Expr) (mutate : Expr → Expr)
    (r : VarRand) (cxpb mutpb : ℚ) (ntrees : Nat) (pop : List GpInd) :
    List GpInd :=
  mutLoop mutate r.mutRoll mutpb ntrees 0
    (cxLoop mate r.cxRoll r.cxComponent cxpb ntrees 0 pop)

/-- Whether variation touched offspring `j` in a population of size `n`:
its (complete) pair's crossover gate fired, or some subtree's mutation
gate fired. -/
def variationTouched (r : VarRand) (cxpb mutpb : ℚ) (ntrees n j : Nat) :
    Prop :=
  (2 * (j / 2) + 1 < n ∧ r.cxRoll (j / 2) < cxpb) ∨
  (∃ h < ntrees, r.mutRoll j h < mutpb)

/-! ## Theorems -/

/-- C10: for every roll in `[0,1)` the randomized mating operator and the
randomized mutation operator each take exactly one branch (the thresholds
0.5/1.5 and 0.5/0.66/2.66 jointly cover `[0,1)`), so neither falls through
to `None`; the branch regions are `[0,0.5)`/`[0.5,1)` for mating and
`[0,0.5)`/`[0.5,0.66)`/`[0.66,1)` for insert/shrink/node-replacement,
whose lengths are 0.5, 0.5 and 0.5, 0.16, 0.34. -/
theorem mating_mutation_branches_total (roll : ℚ)
    (h0 : 0 ≤ roll) (h1 : roll < 1) :
    (randomMatingOperator roll).isSome ∧
    (randomMutationOperator roll).isSome ∧
    (randomMatingOperator roll = some .cxOnePoint ↔ roll < 1/2) ∧
    (randomMatingOperator roll = some .cxOnePointLeafBiased ↔ 1/2 ≤ roll) ∧
    (randomMutationOperator roll = some .mutInsert ↔ roll < 1/2) ∧
    (randomMutationOperator roll = some .mutShrink ↔
      1/2 ≤ roll ∧ roll < 33/50) ∧
    (randomMutationOperator roll = some .mutNodeReplacement ↔ 33/50 ≤ roll) ∧
    ((1:ℚ)/2 - 0 = 5/10 ∧ (33:ℚ)/50 - 1/2 = 16/100 ∧
      (1:ℚ) - 33/50 = 34/100) := by
  refine ⟨?_, ?_, ?_, ?_, ?_, ?_, ?_, by norm_num⟩
  all_goals simp only [randomMatingOperator, randomMutationOperator]
  all_goals split_ifs with h h2 h3
  all_goals simp_all
  all_goals linarith

/-- C10 witness at the concrete roll 0.6. -/
theorem mating_mutation_branches_total_witness :
    (randomMutationOperator (3/5) = some .mutShrink ↔
      1/2 ≤ (3:ℚ)/5 ∧ (3:ℚ)/5 < 33/50) := by
  exact (mating_mutation_branches_total (3/5) (by norm_num) (by norm_num)).2.2.2.2.2.1

/-- C9: with at least one symbolic constant and `nc ≤ dimensions`, the
renaming map assigns constant slot `ARG(dimensions+i)` the display name
`x i` for every `i < nc`, the very name already given to state slot
`ARG i`; in particular slots 0 and `dimensions` are distinct argument slots
carrying the same name "x0", so the slot-to-name assignment is not
injective and constants are indistinguishable by name from state
variables. -/
theorem rename_args_constant_name_clash (nc dimensions : Nat)
    (isTimeDependent : Bool) (hnc : 1 ≤ nc) (hle : nc ≤ dimensions) :
    (∀ i < nc,
      (renameArgsMap nc dimensions isTimeDependent)[dimensions + i]?
        = some ("ARG" ++ toString (i + dimensions), "x" ++ toString i) ∧
      (renameArgsMap nc dimensions isTimeDependent)[i]?
        = some ("ARG" ++ toString i, "x" ++ toString i)) ∧
    (0 : Nat) ≠ dimensions ∧
    ((renameArgsMap nc dimensions isTimeDependent)[0]?).map Prod.snd
      = ((renameArgsMap nc dimensions isTimeDependent)[dimensions]?).map
          Prod.snd := by
  have hmain : ∀ i < nc,
      (renameArgsMap nc dimensions isTimeDependent)[dimensions + i]?
        = some ("ARG" ++ toString (i + dimensions), "x" ++ toString i) ∧
      (renameArgsMap nc dimensions isTimeDependent)[i]?
        = some ("ARG" ++ toString i, "x" ++ toString i) := by
    intro i hi
    have hiDim : i < dimensions := lt_of_lt_of_le hi hle
    constructor
    · unfold renameArgsMap
      rw [List.append_assoc]
      rw [List.getElem?_append_right (by simp)]
      simp only [List.length_map, List.length_range]
      have hsub : dimensions + i - dimensions = i := by omega
      rw [hsub]
      rw [List.getElem?_append, if_pos (by simp [hi])]
      simp [hi]
    · unfold renameArgsMap
      rw [List.append_assoc]
      rw [List.getElem?_append, if_pos (by simp [hiDim])]
      simp [hiDim]
  refine ⟨hmain, by omega, ?_⟩
  have h0 := (hmain 0 hnc).2
  have hd := (hmain 0 hnc).1
  rw [h0]
  rw [Nat.add_zero] at hd
  rw [hd]
  simp

/-- C9 witness at `nc = 1`, `dimensions = 2`, no time dependence. -/
theorem rename_args_constant_name_clash_witness :
    ((renameArgsMap 1 2 false)[0]?).map Prod.snd
      = ((renameArgsMap 1 2 false)[2]?).map Prod.snd := by
  exact (rename_args_constant_name_clash 1 2 false (by norm_num)
    (by norm_num)).2.2

/-- Helper: the evaluator on a valid input with a non-null split ratio,
unfolded to fit/score/penalty form. -/
theorem evalSymbReg_some_ratio {μ : Type} (eng : SindyEngine μ)
    (individual : List Expr) (ntrees maxDepth : Nat)
    (xTrain : List (List ℚ)) (xDotTrain : Option (List (List ℚ)))
    (timeRecObs : Option (List ℚ)) (flagSolution : Bool) (ratio : ℚ)
    (sparsity : String) (h3 : 3 ≤ xTrain.length) :
    evalSymbReg eng individual ntrees maxDepth xTrain xDotTrain timeRecObs
      flagSolution (some ratio) sparsity
    = evalReturn flagSolution
        (eng.createFit individual (splitList xTrain ratio).1
          (splitOpt xDotTrain ratio).1 (splitOpt timeRecObs ratio).1)
        (applySparsity eng individual ntrees maxDepth sparsity
          (eng.createFit individual (splitList xTrain ratio).1
            (splitOpt xDotTrain ratio).1 (splitOpt timeRecObs ratio).1)
          (eng.score
            (eng.createFit individual (splitList xTrain ratio).1
              (splitOpt xDotTrain ratio).1 (splitOpt timeRecObs ratio).1)
            (splitList xTrain ratio).2 (splitOpt timeRecObs ratio).2
            (splitOpt xDotTrain ratio).2)) := by
  have hn : ¬ xTrain.length < 3 := not_lt.mpr h3
  simp [evalSymbReg, hn]

/-- C2: on any valid evaluation (with the in-loop split), the fitness the
evaluator returns is the model score minus the sparsity penalty, with no
sign flip; the registered fitness weight is the positive `(1.0,)`, and the
weighted fitness DEAP compares is order-isomorphic to the raw fitness, so
a larger-is-better metric is directly maximized. -/
theorem fitness_directly_maximized {μ : Type} (eng : SindyEngine μ)
    (individual : List Expr) (ntrees maxDepth : Nat)
    (xTrain : List (List ℚ)) (xDotTrain : Option (List (List ℚ)))
    (timeRecObs : Option (List ℚ)) (ratio : ℚ) (sparsity : String)
    (h3 : 3 ≤ xTrain.length) :
    (evalSymbReg eng individual ntrees maxDepth xTrain xDotTrain timeRecObs
        false (some ratio) sparsity
      = .ok (.inl [
          eng.score
            (eng.createFit individual (splitList xTrain ratio).1
              (splitOpt xDotTrain ratio).1 (splitOpt timeRecObs ratio).1)
            (splitList xTrain ratio).2 (splitOpt timeRecObs ratio).2
            (splitOpt xDotTrain ratio).2
          - (if sparsity = "n_zero_nodes" then
              sparsityPenalty individual
                (eng.coefficients
                  (eng.createFit individual (splitList xTrain ratio).1
                    (splitOpt xDotTrain ratio).1
                    (splitOpt timeRecObs ratio).1)) ntrees maxDepth
             else 0)])) ∧
    fitnessMaxWeight = 1 ∧
    (∀ a b : ℚ, weightedFitness a < weightedFitness b ↔ a < b) := by
  refine ⟨?_, rfl, fun a b => by simp [weightedFitness, fitnessMaxWeight]⟩
  rw [evalSymbReg_some_ratio eng individual ntrees maxDepth xTrain xDotTrain
    timeRecObs false ratio sparsity h3]
  unfold evalReturn applySparsity
  by_cases hs : sparsity = "n_zero_nodes" <;> simp [hs]

/-- C2 witness: the recording engine on ten concrete samples returns the
score minus the (here zero) penalty. -/
theorem fitness_directly_maximized_witness :
    evalSymbReg recordingEngine [Expr.term "ARG0"] 1 2 xT10 none none
        false (some (4/5)) "n_zero_nodes"
      = .ok (.inl [(0 : ℚ) - 0]) ∧ fitnessMaxWeight = 1 := by
  have h := fitness_directly_maximized recordingEngine [Expr.term "ARG0"]
    1 2 xT10 none none (4/5) "n_zero_nodes" (by decide)
  refine ⟨?_, h.2.1⟩
  rw [h.1]
  have hcount : countPenaltyNodes [Expr.term "ARG0"]
      (npSplit (transposeFlatten []) 1) 1 = 0 := by decide
  have hpen : sparsityPenalty [Expr.term "ARG0"]
      (recordingEngine.coefficients
        (recordingEngine.createFit [Expr.term "ARG0"] (splitList xT10 (4/5)).1
          (splitOpt none (4/5)).1 (splitOpt none (4/5)).1)) 1 2 = 0 := by
    have h1 : sparsityPenalty [Expr.term "ARG0"]
        (recordingEngine.coefficients
          (recordingEngine.createFit [Expr.term "ARG0"]
            (splitList xT10 (4/5)).1 (splitOpt none (4/5)).1
            (splitOpt none (4/5)).1)) 1 2
        = nodePenalty 2 1 (countPenaltyNodes [Expr.term "ARG0"]
            (npSplit (transposeFlatten []) 1) 1) := rfl
    rw [h1, hcount]
    norm_num [nodePenalty]
  rw [hpen]
  simp [recordingEngine]

/-- Helper: mapping a fallible function over a nonempty list all of whose
evaluations fail yields the failure. -/
theorem mapM_all_error {α β : Type} (f : α → Except String β) (e : String) :
    ∀ (l : List α), l ≠ [] → (∀ a ∈ l, f a = .error e) →
    l.mapM f = .error e := by
  intro l hne herr
  cases l with
  | nil => exact absurd rfl hne
  | cons a l' =>
    have ha := herr a (by simp)
    simp only [List.mapM, List.mapM.loop, ha]
    rfl

/-- C3: a training array with fewer than 3 samples makes the evaluator
raise the `ValueError` naming the precondition — uniformly in the fitting
engine, so no fit is attempted — and the driver's evaluation phase, which
wraps no handler around `toolbox.map(toolbox.evaluate, invalid_ind)`,
propagates the error, aborting the generation. -/
theorem short_input_validation_error {μ : Type} (eng : SindyEngine μ)
    (xTrain : List (List ℚ)) (hshort : xTrain.length < 3) :
    (∀ (individual : List Expr) (ntrees maxDepth : Nat)
       (xDotTrain : Option (List (List ℚ))) (timeRecObs : Option (List ℚ))
       (flagSolution : Bool) (trTeRatio : Option ℚ) (sparsity : String),
       evalSymbReg eng individual ntrees maxDepth xTrain xDotTrain timeRecObs
         flagSolution trTeRatio sparsity
       = .error "x_train shall have at least 3 timepounts!") ∧
    (∀ (pop : List GpInd) (ntrees maxDepth : Nat)
       (xDotTrain : Option (List (List ℚ))) (timeRecObs : Option (List ℚ))
       (sparsity : String), pop.filter invalidFitness ≠ [] →
       evalPhase (toolboxEvaluate eng ntrees maxDepth xTrain xDotTrain
         timeRecObs sparsity) pop
       = .error "x_train shall have at least 3 timepounts!") := by
  have heval : ∀ (individual : List Expr) (ntrees maxDepth : Nat)
      (xDotTrain : Option (List (List ℚ))) (timeRecObs : Option (List ℚ))
      (flagSolution : Bool) (trTeRatio : Option ℚ) (sparsity : String),
      evalSymbReg eng individual ntrees maxDepth xTrain xDotTrain timeRecObs
        flagSolution trTeRatio sparsity
      = .error "x_train shall have at least 3 timepounts!" := by
    intro individual ntrees maxDepth xDotTrain timeRecObs flagSolution
      trTeRatio sparsity
    simp [evalSymbReg, hshort]
  refine ⟨heval, ?_⟩
  intro pop ntrees maxDepth xDotTrain timeRecObs sparsity hne
  have hmap : (pop.filter invalidFitness).mapM
      (toolboxEvaluate eng ntrees maxDepth xTrain xDotTrain timeRecObs
        sparsity)
      = .error "x_train shall have at least 3 timepounts!" := by
    apply mapM_all_error _ _ _ hne
    intro ind _
    unfold toolboxEvaluate
    rw [heval ind.trees ntrees maxDepth xDotTrain timeRecObs
      evaluateRegistration.flagSolution evaluateRegistration.trTeRatio
      sparsity]
    rfl
  simp only [evalPhase]
  rw [hmap]

/-- C3 witness at a two-sample training array and a one-individual
population with invalid fitness. -/
theorem short_input_validation_error_witness :
    evalSymbReg recordingEngine [Expr.term "ARG0"] 1 2 [[0], [1]] none none
        false (some (4/5)) "n_zero_nodes"
      = .error "x_train shall have at least 3 timepounts!" ∧
    evalPhase (toolboxEvaluate recordingEngine 1 2 [[0], [1]] none none
        "n_zero_nodes") [{ trees := [Expr.term "ARG0"], fitness := none }]
      = .error "x_train shall have at least 3 timepounts!" := by
  have h := short_input_validation_error recordingEngine [[0], [1]]
    (by decide)
  exact ⟨h.1 [Expr.term "ARG0"] 1 2 none none false (some (4/5))
      "n_zero_nodes",
    h.2 [{ trees := [Expr.term "ARG0"], fitness := none }] 1 2 none none
      "n_zero_nodes" (by decide)⟩

/-- C4: for a nonnegative split ratio, `int(ratio*len(x))` is the
mathematical `floor(r*n)`, and the evaluator partitions `x_train` (and
`x_dot_train` and `time_rec_obs` when present) contiguously and without
shuffling into the first `floor(r*n)` samples and the remainder, fitting
on the head partition and scoring on the tail partition. -/
theorem contiguous_unshuffled_split {μ : Type} (eng : SindyEngine μ)
    (individual : List Expr) (ntrees maxDepth : Nat) (xTrain : List (List ℚ))
    (xDotTrain : Option (List (List ℚ))) (timeRecObs : Option (List ℚ))
    (r : ℚ) (sparsity : String) (h3 : 3 ≤ xTrain.length) (hr : 0 ≤ r) :
    (∀ n : Nat, pyInt (r * n) = ⌊r * (n : ℚ)⌋) ∧
    splitList xTrain r
      = (xTrain.take (⌊r * (xTrain.length : ℚ)⌋).toNat,
         xTrain.drop (⌊r * (xTrain.length : ℚ)⌋).toNat) ∧
    (splitList xTrain r).1 ++ (splitList xTrain r).2 = xTrain ∧
    splitOpt xDotTrain r
      = (xDotTrain.map (fun l => l.take (⌊r * (l.length : ℚ)⌋).toNat),
         xDotTrain.map (fun l => l.drop (⌊r * (l.length : ℚ)⌋).toNat)) ∧
    splitOpt timeRecObs r
      = (timeRecObs.map (fun l => l.take (⌊r * (l.length : ℚ)⌋).toNat),
         timeRecObs.map (fun l => l.drop (⌊r * (l.length : ℚ)⌋).toNat)) ∧
    evalSymbReg eng individual ntrees maxDepth xTrain xDotTrain timeRecObs
        false (some r) sparsity
      = .ok (.inl [applySparsity eng individual ntrees maxDepth sparsity
          (eng.createFit individual (splitList xTrain r).1
            (splitOpt xDotTrain r).1 (splitOpt timeRecObs r).1)
          (eng.score (eng.createFit individual (splitList xTrain r).1
              (splitOpt xDotTrain r).1 (splitOpt timeRecObs r).1)
            (splitList xTrain r).2 (splitOpt timeRecObs r).2
            (splitOpt xDotTrain r).2)]) := by
  have hpy : ∀ n : Nat, pyInt (r * n) = ⌊r * (n : ℚ)⌋ := by
    intro n
    unfold pyInt
    rw [if_neg (not_lt.mpr (mul_nonneg hr (Nat.cast_nonneg n)))]
  refine ⟨hpy, ?_, List.take_append_drop _ _, ?_, ?_, ?_⟩
  · unfold splitList
    rw [hpy xTrain.length]
  · cases xDotTrain with
    | none => rfl
    | some l => simp [splitOpt, splitList, hpy]
  · cases timeRecObs with
    | none => rfl
    | some l => simp [splitOpt, splitList, hpy]
  · rw [evalSymbReg_some_ratio eng individual ntrees maxDepth xTrain
      xDotTrain timeRecObs false r sparsity h3]
    rfl

/-- C4 witness: ratio 0.8 on 10 samples gives exactly the first 8 as
train partition and the last 2 as test partition. -/
theorem contiguous_unshuffled_split_witness :
    splitList xT10 (4/5)
      = (xT10.take (⌊(4/5 : ℚ) * (xT10.length : ℚ)⌋).toNat,
         xT10.drop (⌊(4/5 : ℚ) * (xT10.length : ℚ)⌋).toNat) ∧
    (⌊(4/5 : ℚ) * (xT10.length : ℚ)⌋).toNat = 8 ∧
    xT10.take 8 ++ xT10.drop 8 = xT10 ∧
    (xT10.take 8).length = 8 ∧ (xT10.drop 8).length = 2 := by
  have hlen : xT10.length = 10 := by decide
  have hk : (⌊(4/5 : ℚ) * (xT10.length : ℚ)⌋).toNat = 8 := by
    rw [hlen]
    norm_num
    decide
  refine ⟨(contiguous_unshuffled_split recordingEngine [] 1 2 xT10 none none
    (4/5) "n_zero_nodes" (by decide) (by norm_num)).2.1,
    hk, by decide, by decide, by decide⟩

/-- C5: in sparsity mode `"n_zero_nodes"` the fitness is the score minus
`countPenaltyNodes / (2^(1+max_depth)*ntrees)` where fully-zeroed
subtrees contribute no nodes; the penalty is 0 when every subtree's
fitted coefficients are entirely zero, and with the base score held
fixed the fitness strictly decreases as the retained node count grows. -/
theorem sparsity_penalty_rewards_zeroed_subtrees {μ : Type}
    (eng : SindyEngine μ) (individual : List Expr) (ntrees maxDepth : Nat)
    (xTrain : List (List ℚ)) (xDotTrain : Option (List (List ℚ)))
    (timeRecObs : Option (List ℚ)) (ratio : ℚ)
    (h3 : 3 ≤ xTrain.length) (hnt : 0 < ntrees) :
    (evalSymbReg eng individual ntrees maxDepth xTrain xDotTrain timeRecObs
        false (some ratio) "n_zero_nodes"
      = .ok (.inl [
          eng.score (eng.createFit individual (splitList xTrain ratio).1
              (splitOpt xDotTrain ratio).1 (splitOpt timeRecObs ratio).1)
            (splitList xTrain ratio).2 (splitOpt timeRecObs ratio).2
            (splitOpt xDotTrain ratio).2
          - nodePenalty maxDepth ntrees (countPenaltyNodes individual
              (npSplit (transposeFlatten (eng.coefficients
                (eng.createFit individual (splitList xTrain ratio).1
                  (splitOpt xDotTrain ratio).1 (splitOpt timeRecObs ratio).1)))
                ntrees) ntrees)])) ∧
    (∀ (ind : List Expr) (coefs : List (List ℚ)),
       (∀ i < ntrees,
         ((npSplit (transposeFlatten coefs) ntrees).getD i []).all
           (fun c => decide (c = 0)) = true) →
       sparsityPenalty ind coefs ntrees maxDepth = 0) ∧
    (∀ (s : ℚ) (n₁ n₂ : Nat), n₁ < n₂ →
       s - nodePenalty maxDepth ntrees n₂
         < s - nodePenalty maxDepth ntrees n₁) := by
  refine ⟨?_, ?_, ?_⟩
  · rw [evalSymbReg_some_ratio eng individual ntrees maxDepth xTrain
      xDotTrain timeRecObs false ratio "n_zero_nodes" h3]
    rfl
  · intro ind coefs hall
    unfold sparsityPenalty
    have hc : countPenaltyNodes ind (npSplit (transposeFlatten coefs) ntrees)
        ntrees = 0 := by
      unfold countPenaltyNodes
      apply List.sum_eq_zero
      intro x hx
      simp only [List.mem_map, List.mem_range] at hx
      obtain ⟨i, hi, hxe⟩ := hx
      rw [← hxe, if_pos (hall i hi)]
    rw [hc]
    norm_num [nodePenalty]
  · intro s n₁ n₂ hlt
    apply sub_lt_sub_left
    have hD : (0:ℚ) < 2 ^ (1 + maxDepth) * (ntrees : ℚ) := by
      have hnt2 : (0:ℚ) < (ntrees : ℚ) := by exact_mod_cast hnt
      positivity
    unfold nodePenalty
    rw [div_lt_div_right hD]
    exact_mod_cast hlt

/-- C5 witness: a fully zeroed coefficient matrix gives zero penalty, and
one retained node gives a strictly lower fitness than zero nodes. -/
theorem sparsity_penalty_rewards_zeroed_subtrees_witness :
    sparsityPenalty [Expr.term "ARG0"] [] 1 2 = 0 ∧
    ((0:ℚ) - nodePenalty 2 1 1 < 0 - nodePenalty 2 1 0) := by
  have h := sparsity_penalty_rewards_zeroed_subtrees recordingEngine
    [Expr.term "ARG0"] 1 2 xT10 none none (4/5) (by decide) (by norm_num)
  exact ⟨h.2.1 [Expr.term "ARG0"] [] (by decide), h.2.2 0 0 1 (by norm_num)⟩

/-- C1 counterexample: the code registers `retrieve_model` with
`tr_te_ratio=0.8`, not with no split, so the final refit on ten samples
fits on only the first 8 of them — the fitted data is not the entire
training set as the claim asserts. -/
theorem final_refit_no_split_counterexample :
    retrieveModelRegistration.trTeRatio = some (4/5) ∧
    retrieveModel recordingEngine [Expr.term "ARG0"] 1 2 xT10 none none
        "n_zero_nodes"
      = .ok (.inr (xT10.take 8)) ∧
    xT10.take 8 ≠ xT10 := by
  refine ⟨rfl, ?_, by decide⟩
  show evalSymbReg recordingEngine [Expr.term "ARG0"] 1 2 xT10 none none
      true (some (4/5)) "n_zero_nodes" = .ok (.inr (xT10.take 8))
  rw [evalSymbReg_some_ratio recordingEngine [Expr.term "ARG0"] 1 2 xT10
    none none true (4/5) "n_zero_nodes" (by decide)]
  have hsplit : (splitList xT10 (4/5)).1 = xT10.take 8 := by
    unfold splitList
    have hlen : xT10.length = 10 := by decide
    have h8 : (pyInt ((4/5 : ℚ) * ((10:ℕ) : ℚ))).toNat = 8 := by
      norm_num [pyInt]
      decide
    rw [hlen, h8]
  simp [evalReturn, recordingEngine, hsplit]

/-- C1 amended: after the generational loop, the Trained Model is produced
by re-running the fitness evaluator exactly once on the hall-of-fame best
individual with the return-model flag set, but this final fit uses the
same 0.8 train/test split as the in-loop evaluations — it fits on the
first `int(0.8*n)` training samples, not on the entire training set. -/
theorem final_refit_single_run_with_split {μ : Type} (eng : SindyEngine μ)
    (hofBest : List Expr) (ntrees maxDepth : Nat) (xTrain : List (List ℚ))
    (xDotTrain : Option (List (List ℚ))) (timeRecObs : Option (List ℚ))
    (sparsity : String) (h3 : 3 ≤ xTrain.length) :
    retrieveModelRegistration.flagSolution = true ∧
    retrieveModelRegistration.trTeRatio = evaluateRegistration.trTeRatio ∧
    retrieveModelRegistration.trTeRatio = some (4/5) ∧
    retrieveModel eng hofBest ntrees maxDepth xTrain xDotTrain timeRecObs
        sparsity
      = .ok (.inr (eng.createFit hofBest (splitList xTrain (4/5)).1
          (splitOpt xDotTrain (4/5)).1 (splitOpt timeRecObs (4/5)).1)) := by
  refine ⟨rfl, rfl, rfl, ?_⟩
  unfold retrieveModel retrieveModelRegistration
  rw [evalSymbReg_some_ratio eng hofBest ntrees maxDepth xTrain xDotTrain
    timeRecObs true (4/5) sparsity h3]
  rfl

/-- C1 amended-claim witness: the recording engine confirms the final
refit is one evaluator call fitted on the head split of the data. -/
theorem final_refit_single_run_with_split_witness :
    retrieveModel recordingEngine [Expr.term "ARG0"] 1 2 xT10 none none
        "n_zero_nodes"
      = .ok (.inr (recordingEngine.createFit [Expr.term "ARG0"]
          (splitList xT10 (4/5)).1 (splitOpt none (4/5)).1
          (splitOpt none (4/5)).1)) ∧
    (splitList xT10 (4/5)).1 = xT10.take 8 := by
  refine ⟨(final_refit_single_run_with_split recordingEngine
    [Expr.term "ARG0"] 1 2 xT10 none none "n_zero_nodes" (by decide)).2.2.2,
    ?_⟩
  unfold splitList
  have hlen : xT10.length = 10 := by decide
  have h8 : (pyInt ((4/5 : ℚ) * ((10:ℕ) : ℚ))).toNat = 8 := by
    norm_num [pyInt]
    decide
  rw [hlen, h8]

/-- Helper: elementwise characterization of the static-limit wrapper. -/
theorem staticLimit_getElem (maxValue : Nat) (choose : Nat → Nat)
    (parents : List Expr) :
    ∀ (i : Nat) (results : List Expr) (j : Nat),
      (staticLimit maxValue choose parents i results)[j]?
        = (results[j]?).map (fun t =>
            if maxValue < t.height then
              parents.getD (choose (i + j) % parents.length) default
            else t) := by
  intro i results
  induction results generalizing i with
  | nil => intro j; simp [staticLimit]
  | cons a rest ih =>
    intro j
    cases j with
    | zero => simp [staticLimit]
    | succ j2 =>
      simp only [staticLimit, List.getElem?_cons_succ]
      rw [ih (i+1) j2]
      have hidx : i + 1 + j2 = i + (j2 + 1) := by omega
      rw [hidx]

/-- Helper: a default-valued index into a nonempty list is a member. -/
theorem getD_mem_of_ne_nil (parents : List Expr) (k : Nat)
    (hne : parents ≠ []) :
    parents.getD (k % parents.length) default ∈ parents := by
  have hl : 0 < parents.length := List.length_pos.mpr hne
  have hk : k % parents.length < parents.length := Nat.mod_lt _ hl
  rw [List.getD_eq_getElem parents default hk]
  exact List.getElem_mem hk

/-- C7: with the registered static limit `max_value=2` and height key,
every tree the decorated crossover/mutation operators emit has height at
most 2: a raw operator result within the bound passes through unchanged,
and an oversized raw result is rejected and replaced by one of the
pre-operation parent trees (a post-operation check, not a generative
constraint), so, when the parents obey the bound, all emitted trees
do. -/
theorem produced_trees_respect_height_limit (choose : Nat → Nat)
    (parents results : List Expr) (i : Nat) (hne : parents ≠ [])
    (hp : ∀ p ∈ parents, p.height ≤ operatorMaxHeight) :
    (∀ t ∈ staticLimit operatorMaxHeight choose parents i results,
      t.height ≤ operatorMaxHeight) ∧
    (∀ (j : Nat) (t : Expr), results[j]? = some t →
      t.height ≤ operatorMaxHeight →
      (staticLimit operatorMaxHeight choose parents i results)[j]? = some t) ∧
    (∀ (j : Nat) (t : Expr), results[j]? = some t →
      operatorMaxHeight < t.height →
      ∃ p ∈ parents,
        (staticLimit operatorMaxHeight choose parents i results)[j]?
          = some p) := by
  refine ⟨?_, ?_, ?_⟩
  · intro t ht
    obtain ⟨j, hj⟩ := List.getElem?_of_mem ht
    rw [staticLimit_getElem] at hj
    cases hres : results[j]? with
    | none => rw [hres] at hj; simp at hj
    | some u =>
      rw [hres] at hj
      simp at hj
      by_cases hu : operatorMaxHeight < u.height
      · rw [if_pos hu] at hj
        rw [← hj]
        refine hp _ ?_
        rw [← List.getD_eq_getElem?_getD]
        exact getD_mem_of_ne_nil parents (choose (i + j)) hne
      · rw [if_neg hu] at hj
        rw [← hj]
        exact not_lt.mp hu
  · intro j t hjt hle
    rw [staticLimit_getElem, hjt]
    simp [not_lt.mpr hle]
  · intro j t hjt hgt
    rw [staticLimit_getElem, hjt]
    exact ⟨parents.getD (choose (i + j) % parents.length) default,
      getD_mem_of_ne_nil parents (choose (i + j)) hne, by simp [hgt]⟩

/-- C7 witness: a height-3 operator result is replaced by the parent
terminal; a height-1 result passes through. -/
theorem produced_trees_respect_height_limit_witness :
    (∀ t ∈ staticLimit operatorMaxHeight (fun _ => 0) [Expr.term "ARG0"] 0
      [Expr.binary "add"
        (Expr.binary "add" (Expr.binary "add" (Expr.term "ARG0")
          (Expr.term "ARG0")) (Expr.term "ARG0")) (Expr.term "ARG0"),
       Expr.unary "sin" (Expr.term "ARG0")],
      t.height ≤ operatorMaxHeight) ∧
    (staticLimit operatorMaxHeight (fun _ => 0) [Expr.term "ARG0"] 0
      [Expr.binary "add"
        (Expr.binary "add" (Expr.binary "add" (Expr.term "ARG0")
          (Expr.term "ARG0")) (Expr.term "ARG0")) (Expr.term "ARG0"),
       Expr.unary "sin" (Expr.term "ARG0")])[1]?
      = some (Expr.unary "sin" (Expr.term "ARG0")) := by
  have h := produced_trees_respect_height_limit (fun _ => 0)
    [Expr.term "ARG0"]
    [Expr.binary "add"
      (Expr.binary "add" (Expr.binary "add" (Expr.term "ARG0")
        (Expr.term "ARG0")) (Expr.term "ARG0")) (Expr.term "ARG0"),
     Expr.unary "sin" (Expr.term "ARG0")] 0 (by simp) (by decide)
  exact ⟨h.1, h.2.1 1 (Expr.unary "sin" (Expr.term "ARG0")) (by decide)
    (by decide)⟩

/-- C8 counterexample: a metric failure on the derivative pair of an
exception type other than `ValueError` is not caught: the wrapper
propagates it instead of reporting an unavailable derivative score. -/
theorem derivative_catch_counterexample :
    scoreWrapper
        (fun (a _ : Nat) => if a = 0 then .ok 1 else .error .otherError)
        0 0 1 1
      = .error .otherError ∧
    scoreWrapper
        (fun (a _ : Nat) => if a = 0 then .ok 1 else .error .otherError)
        0 0 1 1
      ≠ .ok (1, none) := by
  refine ⟨rfl, ?_⟩
  intro h
  exact Except.noConfusion h

/-- C8 amended: in the trained-model wrapper's scoring routine, the state
pair `(x, x_pred)` is scored unguarded — any metric failure there
propagates; on the derivative pair `(xdot, xdot_pred)`, a `ValueError` is
caught and `None` is reported in place of the derivative score, while a
failure of any other exception type propagates to the caller. -/
theorem derivative_valueerror_caught {α : Type}
    (metric : α → α → Except PyError ℚ) (x xPred xdot xdotPred : α) :
    (∀ e, metric x xPred = .error e →
      scoreWrapper metric x xPred xdot xdotPred = .error e) ∧
    (∀ s, metric x xPred = .ok s →
      (metric xdot xdotPred = .error .valueError →
        scoreWrapper metric x xPred xdot xdotPred = .ok (s, none)) ∧
      (∀ d, metric xdot xdotPred = .ok d →
        scoreWrapper metric x xPred xdot xdotPred = .ok (s, some d)) ∧
      (metric xdot xdotPred = .error .otherError →
        scoreWrapper metric x xPred xdot xdotPred
          = .error .otherError)) := by
  refine ⟨?_, ?_⟩
  · intro e he
    simp [scoreWrapper, he]
  · intro s hs
    refine ⟨?_, ?_, ?_⟩
    · intro hd
      simp [scoreWrapper, hs, hd]
    · intro d hd
      simp [scoreWrapper, hs, hd]
    · intro hd
      simp [scoreWrapper, hs, hd]

/-- C8 amended-claim witness at a concrete metric raising `ValueError` on
the derivative pair. -/
theorem derivative_valueerror_caught_witness :
    scoreWrapper
        (fun (a _ : Nat) => if a = 0 then .ok 1 else .error .valueError)
        0 0 1 1
      = .ok (1, none) := by
  exact ((derivative_valueerror_caught
    (fun (a _ : Nat) => if a = 0 then .ok 1 else .error .valueError)
    0 0 1 1).2 1 rfl).1 rfl

/-- Helper: the crossover pass preserves the population length. -/
theorem cxLoop_length (mate : Expr → Expr → Expr × Expr)
    (cxRoll : Nat → ℚ) (cxComponent : Nat → Nat) (cxpb : ℚ) (ntrees : Nat) :
    ∀ (p : Nat) (l : List GpInd),
      (cxLoop mate cxRoll cxComponent cxpb ntrees p l).length = l.length
  | _, [] => by simp [cxLoop]
  | _, [a] => by simp [cxLoop]
  | p, a :: b :: rest => by
    unfold cxLoop
    by_cases hr : cxRoll p < cxpb <;>
      simp [hr, cxLoop_length mate cxRoll cxComponent cxpb ntrees (p+1) rest]

/-- Helper: when the crossover gate of a complete pair fires, both of its
members leave the crossover pass with deleted fitness. -/
theorem cxLoop_pair_none (mate : Expr → Expr → Expr × Expr)
    (cxRoll : Nat → ℚ) (cxComponent : Nat → Nat) (cxpb : ℚ) (ntrees : Nat) :
    ∀ (p : Nat) (l : List GpInd) (j : Nat),
      2 * (j / 2) + 1 < l.length → cxRoll (p + j / 2) < cxpb →
      ∃ ind, (cxLoop mate cxRoll cxComponent cxpb ntrees p l)[j]? = some ind ∧
        ind.fitness = none
  | _, [], j => by
    intro hpair _
    simp at hpair
  | _, [a], j => by
    intro hpair _
    simp at hpair
  | p, a :: b :: rest, 0 => by
    intro _ hroll
    rw [Nat.zero_div, Nat.add_zero] at hroll
    unfold cxLoop
    rw [if_pos hroll]
    exact ⟨_, rfl, rfl⟩
  | p, a :: b :: rest, 1 => by
    intro _ hroll
    rw [(by omega : (1:Nat) / 2 = 0), Nat.add_zero] at hroll
    unfold cxLoop
    rw [if_pos hroll]
    refine ⟨GpInd.mk (b.trees.set (cxComponent p % ntrees)
      (mate (a.trees.getD (cxComponent p % ntrees) default)
        (b.trees.getD (cxComponent p % ntrees) default)).2) none, ?_, rfl⟩
    simp
  | p, a :: b :: rest, (j+2) => by
    intro hpair hroll
    have hpair2 : 2 * (j / 2) + 1 < rest.length := by
      simp at hpair
      omega
    have hroll2 : cxRoll ((p+1) + j / 2) < cxpb := by
      have hidx : (p+1) + j / 2 = p + (j+2) / 2 := by omega
      rw [hidx]
      exact hroll
    obtain ⟨ind, hind, hfit⟩ := cxLoop_pair_none mate cxRoll cxComponent
      cxpb ntrees (p+1) rest j hpair2 hroll2
    unfold cxLoop
    by_cases hr : cxRoll p < cxpb
    · rw [if_pos hr]
      refine ⟨ind, ?_, hfit⟩
      simp only [List.getElem?_cons_succ]
      exact hind
    · rw [if_neg hr]
      refine ⟨ind, ?_, hfit⟩
      simp only [List.getElem?_cons_succ]
      exact hind

/-- Helper: elementwise characterization of the mutation pass. -/
theorem mutLoop_getElem (mutate : Expr → Expr) (mutRoll : Nat → Nat → ℚ)
    (mutpb : ℚ) (ntrees : Nat) :
    ∀ (i : Nat) (l : List GpInd) (j : Nat),
      (mutLoop mutate mutRoll mutpb ntrees i l)[j]?
        = (l[j]?).map (mutInd mutate (mutRoll (i + j)) mutpb ntrees)
  | _, [], j => by simp [mutLoop]
  | i, ind :: rest, 0 => by simp [mutLoop]
  | i, ind :: rest, (j+1) => by
    simp only [mutLoop, List.getElem?_cons_succ]
    rw [mutLoop_getElem mutate mutRoll mutpb ntrees (i+1) rest j]
    have hidx : i + 1 + j = i + (j + 1) := by omega
    rw [hidx]

/-- Helper: the inner mutation loop's deletion flag is set exactly when
some gate in the traversed range fired. -/
theorem mutFold_snd (mutate : Expr → Expr) (roll : Nat → ℚ) (mutpb : ℚ) :
    ∀ (l : List Nat) (ts : List Expr) (b : Bool),
      ((l.foldl (mutStep mutate roll mutpb) (ts, b)).2 = true)
        ↔ (b = true ∨ ∃ h ∈ l, roll h < mutpb)
  | [], ts, b => by simp
  | a :: l, ts, b => by
    rw [List.foldl_cons]
    by_cases hh : roll a < mutpb
    · rw [show mutStep mutate roll mutpb (ts, b) a
          = (ts.set a (mutate (ts.getD a default)), true) from by
        simp [mutStep, hh]]
      rw [mutFold_snd mutate roll mutpb l _ true]
      simp [hh]
    · rw [show mutStep mutate roll mutpb (ts, b) a = (ts, b) from by
        simp [mutStep, hh]]
      rw [mutFold_snd mutate roll mutpb l ts b]
      simp [hh]

/-- Helper: a fired mutation gate deletes the fitness. -/
theorem mutInd_fitness_hit (mutate : Expr → Expr) (roll : Nat → ℚ)
    (mutpb : ℚ) (ntrees : Nat) (ind : GpInd)
    (hhit : ∃ h < ntrees, roll h < mutpb) :
    (mutInd mutate roll mutpb ntrees ind).fitness = none := by
  have hsnd : ((List.range ntrees).foldl (mutStep mutate roll mutpb)
      (ind.trees, false)).2 = true := by
    rw [mutFold_snd]
    right
    obtain ⟨h, hlt, hr⟩ := hhit
    exact ⟨h, List.mem_range.mpr hlt, hr⟩
  simp [mutInd, hsnd]

/-- Helper: the mutation loop never resurrects a deleted fitness. -/
theorem mutInd_fitness_keep_none (mutate : Expr → Expr) (roll : Nat → ℚ)
    (mutpb : ℚ) (ntrees : Nat) (ind : GpInd) (hf : ind.fitness = none) :
    (mutInd mutate roll mutpb ntrees ind).fitness = none := by
  by_cases hsnd : ((List.range ntrees).foldl (mutStep mutate roll mutpb)
      (ind.trees, false)).2 = true
  · simp [mutInd, hsnd]
  · simp [mutInd, hsnd, hf]

/-- Helper: mapping a pure function through the fallible map succeeds
with exactly one application per element. -/
theorem mapM_loop_pure {α β : Type} (f : α → β) :
    ∀ (l : List α) (acc : List β),
      List.mapM.loop (fun a => (Except.ok (f a) : Except String β)) l acc
        = .ok (acc.reverse ++ l.map f)
  | [], acc => by
    simp only [List.mapM.loop, List.map_nil, List.append_nil]
    rfl
  | a :: l, acc => by
    simp only [List.mapM.loop]
    rw [show ((Except.ok (f a) : Except String β) >>= fun b =>
        List.mapM.loop (fun a => (Except.ok (f a) : Except String β)) l
          (b :: acc))
      = List.mapM.loop (fun a => (Except.ok (f a) : Except String β)) l
          (f a :: acc) from rfl]
    rw [mapM_loop_pure f l (f a :: acc)]
    simp

/-- Helper: `List.mapM` of a total evaluation returns its `List.map`. -/
theorem mapM_pure_ok {α β : Type} (f : α → β) (l : List α) :
    l.mapM (fun a => (Except.ok (f a) : Except String β)) = .ok (l.map f) := by
  unfold List.mapM
  rw [mapM_loop_pure f l []]
  simp

/-- Helper: the assignment loop preserves the population length. -/
theorem assignFitnesses_length :
    ∀ (off : List GpInd) (fits : List (List ℚ)),
      (assignFitnesses off fits).length = off.length
  | [], _ => rfl
  | ind :: rest, fits => by
    unfold assignFitnesses
    by_cases h : ind.fitness.isNone = true
    · rw [if_pos h]
      cases fits with
      | nil => rfl
      | cons f fs => simp [assignFitnesses_length rest fs]
    · rw [if_neg h]
      simp [assignFitnesses_length rest fits]

/-- Helper: walking the population and the per-invalid fitness list in
step assigns each invalid individual its own evaluation and leaves every
valid individual untouched. -/
theorem assignFitnesses_spec (evaluate : GpInd → List ℚ) :
    ∀ (off : List GpInd) (j : Nat) (ind : GpInd),
      off[j]? = some ind →
      (ind.fitness = none →
        (assignFitnesses off ((off.filter invalidFitness).map evaluate))[j]?
          = some { ind with fitness := some (evaluate ind) }) ∧
      (ind.fitness ≠ none →
        (assignFitnesses off ((off.filter invalidFitness).map evaluate))[j]?
          = some ind)
  | [], j, ind => by intro hj; simp at hj
  | a :: rest, j, ind => by
    intro hj
    by_cases ha : invalidFitness a = true
    · have hfil : (a :: rest).filter invalidFitness
          = a :: rest.filter invalidFitness := by
        simp [List.filter_cons, ha]
      rw [hfil]
      have hanone : a.fitness = none := by
        have := ha
        unfold invalidFitness at this
        exact Option.isNone_iff_eq_none.mp this
      unfold assignFitnesses
      rw [List.map_cons]
      rw [if_pos (by unfold invalidFitness at ha; exact ha)]
      cases j with
      | zero =>
        rw [List.getElem?_cons_zero, Option.some.injEq] at hj
        subst hj
        constructor
        · intro _
          simp
        · intro hne
          exact absurd hanone hne
      | succ j2 =>
        rw [List.getElem?_cons_succ] at hj
        simp only [List.getElem?_cons_succ]
        exact assignFitnesses_spec evaluate rest j2 ind hj
    · have hfil : (a :: rest).filter invalidFitness
          = rest.filter invalidFitness := by
        simp [List.filter_cons, ha]
      rw [hfil]
      have hasome : a.fitness ≠ none := by
        unfold invalidFitness at ha
        simp at ha
        simp [ha]
      unfold assignFitnesses
      rw [if_neg (by unfold invalidFitness at ha; exact ha)]
      cases j with
      | zero =>
        rw [List.getElem?_cons_zero, Option.some.injEq] at hj
        subst hj
        constructor
        · intro hnone
          exact absurd hnone hasome
        · intro _
          simp
      | succ j2 =>
        rw [List.getElem?_cons_succ] at hj
        simp only [List.getElem?_cons_succ]
        exact assignFitnesses_spec evaluate rest j2 ind hj

/-- C6: any offspring whose pair was crossed or any of whose subtrees was
mutated leaves the variation step with its fitness deleted (invalid), and
the generation's evaluation phase evaluates exactly the individuals with
invalid fitness — `nevals` counts one evaluation per invalid individual,
each invalid individual is assigned precisely its own evaluation result,
and every valid individual passes through untouched. -/
theorem variation_invalidates_and_evaluation_exact
    (mate : Expr → Expr → Expr × Expr) (mutate : Expr → Expr) (r : VarRand)
    (cxpb mutpb : ℚ) (ntrees : Nat) (pop : List GpInd)
    (evaluate : GpInd → List ℚ) :
    (∀ j, j < pop.length →
      variationTouched r cxpb mutpb ntrees pop.length j →
      ∃ ind, (myVarAnd mate mutate r cxpb mutpb ntrees pop)[j]? = some ind ∧
        ind.fitness = none) ∧
    (∀ (off res : List GpInd) (nev : Nat),
      evalPhase (fun ind => .ok (evaluate ind)) off = .ok (res, nev) →
      nev = (off.filter invalidFitness).length ∧
      res.length = off.length ∧
      (∀ (j : Nat) (ind : GpInd), off[j]? = some ind →
        (ind.fitness = none →
          res[j]? = some { ind with fitness := some (evaluate ind) }) ∧
        (ind.fitness ≠ none → res[j]? = some ind))) := by
  constructor
  · intro j hj htouch
    have hlen1 : (cxLoop mate r.cxRoll r.cxComponent cxpb ntrees 0 pop).length
        = pop.length := cxLoop_length mate r.cxRoll r.cxComponent cxpb ntrees
          0 pop
    rcases htouch with ⟨hpair, hroll⟩ | hhit
    · obtain ⟨ind1, hind1, hfit1⟩ := cxLoop_pair_none mate r.cxRoll
        r.cxComponent cxpb ntrees 0 pop j hpair
        (by rw [Nat.zero_add]; exact hroll)
      refine ⟨mutInd mutate (r.mutRoll (0 + j)) mutpb ntrees ind1, ?_, ?_⟩
      · unfold myVarAnd
        rw [mutLoop_getElem mutate r.mutRoll mutpb ntrees 0 _ j, hind1]
        rfl
      · exact mutInd_fitness_keep_none mutate (r.mutRoll (0 + j)) mutpb
          ntrees ind1 hfit1
    · have hj1 : j < (cxLoop mate r.cxRoll r.cxComponent cxpb ntrees
          0 pop).length := by rw [hlen1]; exact hj
      cases hind : (cxLoop mate r.cxRoll r.cxComponent cxpb ntrees
          0 pop)[j]? with
      | none =>
        rw [List.getElem?_eq_none_iff] at hind
        omega
      | some ind1 =>
        refine ⟨mutInd mutate (r.mutRoll (0 + j)) mutpb ntrees ind1, ?_, ?_⟩
        · unfold myVarAnd
          rw [mutLoop_getElem mutate r.mutRoll mutpb ntrees 0 _ j, hind]
          rfl
        · exact mutInd_fitness_hit mutate (r.mutRoll (0 + j)) mutpb ntrees
            ind1 (by rw [Nat.zero_add]; exact hhit)
  · intro off res nev hphase
    have hmapm : (off.filter invalidFitness).mapM
        (fun ind => (Except.ok (evaluate ind) : Except String (List ℚ)))
        = .ok ((off.filter invalidFitness).map evaluate) :=
      mapM_pure_ok evaluate _
    simp only [evalPhase, hmapm] at hphase
    rw [Except.ok.injEq, Prod.mk.injEq] at hphase
    obtain ⟨hres, hnev⟩ := hphase
    refine ⟨hnev.symm, ?_, ?_⟩
    · rw [← hres]
      exact assignFitnesses_length off _
    · intro j ind hj
      rw [← hres]
      exact assignFitnesses_spec evaluate off j ind hj

/-- C6 witness: in a two-individual population with the crossover gate
firing, the first offspring's fitness is deleted by variation, and a
subsequent evaluation phase evaluates exactly the two invalid offspring
once each. -/
theorem variation_invalidates_and_evaluation_exact_witness :
    (∃ ind, (myVarAnd (fun a b => (a, b)) id
        ⟨fun _ => 0, fun _ => 0, fun _ _ => 1⟩ (7/10) (4/5) 1
        [GpInd.mk [Expr.term "ARG0"] (some [1]),
         GpInd.mk [Expr.term "ARG0"] (some [2])])[0]?
      = some ind ∧ ind.fitness = none) ∧
    (1:Nat) = ([GpInd.mk [Expr.term "ARG0"] none].filter
      invalidFitness).length := by
  constructor
  · exact (variation_invalidates_and_evaluation_exact (fun a b => (a, b)) id
      ⟨fun _ => 0, fun _ => 0, fun _ _ => 1⟩ (7/10) (4/5) 1
      [GpInd.mk [Expr.term "ARG0"] (some [1]),
       GpInd.mk [Expr.term "ARG0"] (some [2])] (fun _ => [0])).1
      0 (by norm_num)
      (Or.inl ⟨by norm_num, by norm_num⟩)
  · exact ((variation_invalidates_and_evaluation_exact (fun a b => (a, b)) id
      ⟨fun _ => 0, fun _ => 0, fun _ _ => 1⟩ (7/10) (4/5) 1
      [GpInd.mk [Expr.term "ARG0"] (some [1]),
       GpInd.mk [Expr.term "ARG0"] (some [2])] (fun _ => [0])).2
      [GpInd.mk [Expr.term "ARG0"] none]
      [GpInd.mk [Expr.term "ARG0"] (some [0])] 1 rfl).1
